import Mathlib

/-!
Shallow embedding of the availability scheduling core of the gopsy-backend
repository (Go): the schedule validator (`internal/domain/availability.go`),
the transactional schedule replacer and readers
(`internal/repository/user_repository.go`), the availability usecase
(`internal/usecase/availability_usecase.go`) and the HTTP handler's
struct-tag validation of `SetAvailabilityPayload`.

Conventions of the embedding:
* Go strings are Lean `String`s; Go `error` results become `Option` values
  (`none` = Go `nil`, i.e. success).
* `time.Parse("15:04:05", s)` is embedded as `timeParse`, returning the
  parsed clock time as seconds-of-day.  Go's reference layout `15:04:05`
  parses the hour with 1 or 2 digits (`getnum` non-fixed) and the minute and
  second with exactly 2 digits each, rejects hour ≥ 24, minute ≥ 60,
  second ≥ 60, and rejects trailing text.
* A successfully parsed clock time in Go sits on January 1 of year 0, while
  the `time.Time` zero value returned alongside a parse error is
  January 1 of year 1 — i.e. 366 days (year 0 is a proleptic-Gregorian leap
  year) after every successfully parsed value.  `parseOrZeroTime` mirrors
  this: failures map to the constant `goZeroTime`, which is strictly larger
  than every seconds-of-day value.
* The persistent store is a list of rows plus an id counter; the gorm
  transaction of `ReplaceAll` is embedded by returning the untouched
  pre-call store whenever a step fails (rollback) and the updated store
  otherwise (commit).  Storage faults are injected through an explicit
  `TxFault` parameter.
* `ORDER BY hari ASC, waktu_mulai ASC` sorts by the day *string* (the
  `hari` column is `varchar(20)`, so SQL compares strings) and then by the
  parsed start time (the `waktu_mulai` column has SQL type `time`).  SQL
  guarantees only a sorted permutation; the embedding uses insertion sort,
  and theorems about ordering rely only on sortedness and permutation.
* Go iterates the `daySlots` map in unspecified order.  The embedding
  iterates day groups in a fixed order (`dedup` of the day list); whether
  validation succeeds, and whether the reported error is an overlap error,
  is independent of the iteration order, and no theorem below depends on
  which overlapping day is reported first.
-/

/-- One digit of a numeric field, as in Go `time/format.go`. -/
def digitVal (c : Char) : Nat := c.toNat - '0'.toNat

/-- Go `getnum(value, fixed := true)`: exactly two digits. -/
def parseTwoDigits : List Char → Option (Nat × List Char)
  | c1 :: c2 :: rest =>
    if c1.isDigit && c2.isDigit then some (digitVal c1 * 10 + digitVal c2, rest)
    else none
  | _ => none

/-- Go `getnum(value, fixed := false)` for the `15` hour field: one or two
digits. -/
def parseHourDigits : List Char → Option (Nat × List Char)
  | c1 :: c2 :: rest =>
    if c1.isDigit then
      if c2.isDigit then some (digitVal c1 * 10 + digitVal c2, rest)
      else some (digitVal c1, c2 :: rest)
    else none
  | [c1] => if c1.isDigit then some (digitVal c1, []) else none
  | [] => none

/-- Core of `time.Parse("15:04:05", ·)` on the character list: hour, `:`,
minute, `:`, second, end of input, with the range checks of
`time/format.go` (hour < 24, minute < 60, second < 60).  Returns the
seconds-of-day value. -/
def timeParseChars (cs : List Char) : Option Nat :=
  match parseHourDigits cs with
  | none => none
  | some (h, rest1) =>
    if 24 ≤ h then none
    else
      match rest1 with
      | ':' :: rest2 =>
        match parseTwoDigits rest2 with
        | none => none
        | some (m, rest3) =>
          if 60 ≤ m then none
          else
            match rest3 with
            | ':' :: rest4 =>
              match parseTwoDigits rest4 with
              | none => none
              | some (s, rest5) =>
                if 60 ≤ s then none
                else
                  match rest5 with
                  | [] => some (h * 3600 + m * 60 + s)
                  | _ :: _ => none
            | _ => none
      | _ => none

/-- Embedding of Go `time.Parse("15:04:05", s)`: `some` seconds-of-day on
success, `none` on a parse error. -/
def timeParse (s : String) : Option Nat := timeParseChars s.data

/-- `internal/domain/availability.go`: `SlotPayload`.  The struct tags
(`oneof=Senin Selasa Rabu Kamis Jumat Sabtu Minggu`,
`datetime=15:04:05`) are modelled separately by `slotTagValid`, because Go
evaluates them only in the HTTP handler via `validator.Struct`. -/
structure SlotPayload where
  hari : String
  waktuMulai : String
  waktuSelesai : String
deriving DecidableEq

/-- `internal/domain/availability.go`: `DomainError` (only the fields the
scheduling logic sets; `Err` is always `nil` on the paths embedded here). -/
structure DomainError where
  httpStatus : Nat
  message : String
deriving DecidableEq

/-- `SlotPayload.Validate`: parse both times, require start strictly before
end, require duration of at least 30 minutes (1800 seconds).  `none` is
Go's `nil` (success).  The day string is never inspected. -/
def SlotPayload.validate (s : SlotPayload) : Option DomainError :=
  match timeParse s.waktuMulai with
  | none => some ⟨400, "Invalid start time format"⟩
  | some startTime =>
    match timeParse s.waktuSelesai with
    | none => some ⟨400, "Invalid end time format"⟩
    | some endTime =>
      if ¬ startTime < endTime then
        some ⟨400, "Start time must be before end time"⟩
      else if endTime - startTime < 1800 then
        some ⟨400, "Minimum consultation duration is 30 minutes"⟩
      else none

/-- Seconds between January 1 of year 0 (the date of every clock time that
`time.Parse` returns for the `15:04:05` layout) and January 1 of year 1
(the `time.Time` zero value that a failed `time.Parse` returns): 366 days,
year 0 being a leap year of the proleptic Gregorian calendar. -/
def goZeroTime : Nat := 366 * 86400

/-- The value `isOverlapping` actually compares after discarding the
`time.Parse` error: the parsed clock time on success, the zero `time.Time`
on failure. -/
def parseOrZeroTime (s : String) : Nat :=
  match timeParse s with
  | some n => n
  | none => goZeroTime

/-- `isOverlapping`: parse all four times with the errors discarded, then
test `start1.Before(end2) && start2.Before(end1)`. -/
def isOverlapping (slot1 slot2 : SlotPayload) : Bool :=
  let start1 := parseOrZeroTime slot1.waktuMulai
  let end1 := parseOrZeroTime slot1.waktuSelesai
  let start2 := parseOrZeroTime slot2.waktuMulai
  let end2 := parseOrZeroTime slot2.waktuSelesai
  decide (start1 < end2) && decide (start2 < end1)

/-- Inner loop of `validateNoOverlapping`: the first slot of the remainder
that overlaps `s`, in order. -/
def checkAgainst (s : SlotPayload) : List SlotPayload → Option SlotPayload
  | [] => none
  | t :: ts => if isOverlapping s t then some t else checkAgainst s ts

/-- Error message built by `validateNoOverlapping`'s `fmt.Errorf`. -/
def overlapPairMsg (a b : SlotPayload) : String :=
  "slots " ++ a.waktuMulai ++ "-" ++ a.waktuSelesai ++ " and " ++
    b.waktuMulai ++ "-" ++ b.waktuSelesai ++ " are overlapping"

/-- `validateNoOverlapping`: the double loop `for i; for j > i` reporting
the first overlapping pair in iteration order. -/
def validateNoOverlapping : List SlotPayload → Option String
  | [] => none
  | s :: rest =>
    match checkAgainst s rest with
    | some t => some (overlapPairMsg s t)
    | none => validateNoOverlapping rest

/-- `internal/domain/availability.go`: `SetAvailabilityPayload`. -/
structure SetAvailabilityPayload where
  slots : List SlotPayload
deriving DecidableEq

/-- Step 1 of `SetAvailabilityPayload.Validate`: validate every slot,
short-circuiting on the first failure. -/
def validateSlots : List SlotPayload → Option DomainError
  | [] => none
  | s :: rest =>
    match s.validate with
    | some e => some e
    | none => validateSlots rest

/-- The `daySlots` map of `SetAvailabilityPayload.Validate`, as an
association list: one entry per distinct day, carrying that day's slots in
their original order (Go `append` preserves it).  Go iterates the map in
unspecified order; `dedup` fixes one order, on which no theorem depends. -/
def dayGroups (slots : List SlotPayload) : List (String × List SlotPayload) :=
  (slots.map (fun s => s.hari)).dedup.map
    (fun d => (d, slots.filter (fun s => s.hari == d)))

/-- The per-day loop of `SetAvailabilityPayload.Validate`, wrapping an
overlap report into the `DomainError` built with `fmt.Sprintf`. -/
def checkGroups : List (String × List SlotPayload) → Option DomainError
  | [] => none
  | (day, slots) :: rest =>
    match validateNoOverlapping slots with
    | some msg =>
      some ⟨400, "Time overlapping detected for " ++ day ++ ": " ++ msg⟩
    | none => checkGroups rest

/-- `SetAvailabilityPayload.Validate`: per-slot validation, then the
per-day overlap check. -/
def SetAvailabilityPayload.validate (p : SetAvailabilityPayload) :
    Option DomainError :=
  match validateSlots p.slots with
  | some e => some e
  | none => checkGroups (dayGroups p.slots)

/-- `internal/domain/availability.go`: `WaktuKonsultasi`, the persisted row
(timestamp columns omitted; no theorem mentions them). -/
structure WaktuKonsultasi where
  id : Nat
  psikologID : Nat
  hari : String
  waktuMulai : String
  waktuSelesai : String
deriving DecidableEq

/-- The persistent store: the `waktu_konsultasi` table plus the sequence
backing its `bigserial` primary key. -/
structure Store where
  rows : List WaktuKonsultasi
  nextId : Nat
deriving DecidableEq

/-- Injected storage fault for the two write steps of `ReplaceAll`:
`failDelete` makes the `Delete` call fail, `failInsert` makes the `Create`
call fail if it executes. -/
inductive TxFault where
  | noFault
  | failDelete
  | failInsert
deriving DecidableEq

/-- Effect of `tx.Where("psikolog_id = ?", psikologID).Delete(...)`. -/
def deleteByPsikolog (rows : List WaktuKonsultasi) (psikologID : Nat) :
    List WaktuKonsultasi :=
  rows.filter (fun r => !(r.psikologID == psikologID))

/-- Effect of `tx.Create(&slots)`: each row is inserted with the next
sequence value as primary key, in order. -/
def assignIds (nid : Nat) : List WaktuKonsultasi → List WaktuKonsultasi
  | [] => []
  | s :: rest => { s with id := nid } :: assignIds (nid + 1) rest

/-- `availabilityRepository.ReplaceAll`: inside one gorm transaction,
delete every row of the owner, then — only when the new list is non-empty
(`len(slots) > 0`) — batch-insert the new rows.  An error from either step
aborts the callback, gorm rolls the transaction back (the pre-call store is
returned untouched) and the wrapped error is propagated; otherwise the
transaction commits. -/
def ReplaceAll (st : Store) (psikologID : Nat)
    (slots : List WaktuKonsultasi) (fault : TxFault) :
    Store × Option String :=
  if fault = .failDelete then
    (st, some "failed to delete old availability slots")
  else
    let deleted := deleteByPsikolog st.rows psikologID
    if 0 < slots.length then
      if fault = .failInsert then
        (st, some "failed to create new availability slots")
      else
        ({ rows := deleted ++ assignIds st.nextId slots,
           nextId := st.nextId + slots.length }, none)
    else
      ({ st with rows := deleted }, none)

/-- Sort key of the `waktu_mulai` column: its SQL type is `time`, so the
database orders rows by the parsed time value. -/
def startKey (r : WaktuKonsultasi) : Nat := (timeParse r.waktuMulai).getD 0

/-- Code-point-wise lexicographic comparison of character lists: the SQL
comparison of two `varchar` values under byte order (all seven weekday
labels are ASCII, where byte order and alphabetical order agree). -/
def charListLt : List Char → List Char → Bool
  | [], [] => false
  | [], _ :: _ => true
  | _ :: _, [] => false
  | a :: as, b :: bs =>
    if a.toNat < b.toNat then true
    else if b.toNat < a.toNat then false
    else charListLt as bs

/-- SQL string comparison for the `hari` column. -/
def strLt (a b : String) : Bool := charListLt a.data b.data

/-- The row order of `ORDER BY hari ASC, waktu_mulai ASC`: the `hari`
column is `varchar(20)`, so SQL compares the day *strings*, then the
parsed start times. -/
def rowle (a b : WaktuKonsultasi) : Prop :=
  strLt a.hari b.hari = true ∨ (a.hari = b.hari ∧ startKey a ≤ startKey b)

instance : DecidableRel rowle := fun a b => by
  unfold rowle; infer_instance

theorem charEq_of_toNat_eq {a b : Char} (h : a.toNat = b.toNat) : a = b := by
  apply Char.ext
  apply UInt32.ext
  exact h

theorem charListLt_trichotomy : ∀ as bs : List Char,
    charListLt as bs = true ∨ as = bs ∨ charListLt bs as = true := by
  intro as
  induction as with
  | nil =>
    intro bs
    cases bs with
    | nil => exact Or.inr (Or.inl rfl)
    | cons b bs2 => exact Or.inl rfl
  | cons a as2 ih =>
    intro bs
    cases bs with
    | nil => exact Or.inr (Or.inr rfl)
    | cons b bs2 =>
      by_cases h1 : a.toNat < b.toNat
      · left
        simp [charListLt, h1]
      · by_cases h2 : b.toNat < a.toNat
        · right; right
          simp [charListLt, h2]
        · have hab : a = b := charEq_of_toNat_eq (by omega)
          subst hab
          rcases ih bs2 with h | h | h
          · left
            simp [charListLt, h]
          · right; left
            rw [h]
          · right; right
            simp [charListLt, h]

theorem charListLt_trans : ∀ as bs cs : List Char,
    charListLt as bs = true → charListLt bs cs = true →
    charListLt as cs = true := by
  intro as
  induction as with
  | nil =>
    intro bs cs h1 h2
    cases bs with
    | nil => exact absurd h1 (by simp [charListLt])
    | cons b bs2 =>
      cases cs with
      | nil => exact absurd h2 (by simp [charListLt])
      | cons c cs2 => simp [charListLt]
  | cons a as2 ih =>
    intro bs cs h1 h2
    cases bs with
    | nil => exact absurd h1 (by simp [charListLt])
    | cons b bs2 =>
      cases cs with
      | nil => exact absurd h2 (by simp [charListLt])
      | cons c cs2 =>
        simp only [charListLt] at h1 h2 ⊢
        by_cases hab : a.toNat < b.toNat
        · by_cases hbc : b.toNat < c.toNat
          · simp [show a.toNat < c.toNat by omega]
          · by_cases hcb : c.toNat < b.toNat
            · simp [hbc, hcb] at h2
            · simp [show a.toNat < c.toNat by omega]
        · by_cases hba : b.toNat < a.toNat
          · simp [hab, hba] at h1
          · simp [hab, hba] at h1
            by_cases hbc : b.toNat < c.toNat
            · simp [show a.toNat < c.toNat by omega]
            · by_cases hcb : c.toNat < b.toNat
              · simp [hbc, hcb] at h2
              · simp [hbc, hcb] at h2
                simp [show ¬ a.toNat < c.toNat by omega,
                  show ¬ c.toNat < a.toNat by omega]
                exact ih bs2 cs2 h1 h2

theorem strLt_trichotomy (a b : String) :
    strLt a b = true ∨ a = b ∨ strLt b a = true := by
  rcases charListLt_trichotomy a.data b.data with h | h | h
  · exact Or.inl h
  · refine Or.inr (Or.inl ?_)
    cases a with
    | mk da =>
      cases b with
      | mk db =>
        simp only at h
        rw [h]
  · exact Or.inr (Or.inr h)

theorem strLt_trans {a b c : String} (h1 : strLt a b = true)
    (h2 : strLt b c = true) : strLt a c = true :=
  charListLt_trans a.data b.data c.data h1 h2

instance : IsTotal WaktuKonsultasi rowle where
  total a b := by
    rcases strLt_trichotomy a.hari b.hari with h | h | h
    · exact Or.inl (Or.inl h)
    · rcases Nat.le_total (startKey a) (startKey b) with h2 | h2
      · exact Or.inl (Or.inr ⟨h, h2⟩)
      · exact Or.inr (Or.inr ⟨h.symm, h2⟩)
    · exact Or.inr (Or.inl h)

instance : IsTrans WaktuKonsultasi rowle where
  trans a b c hab hbc := by
    rcases hab with hab | ⟨hab, hab2⟩
    · rcases hbc with hbc | ⟨hbc, _⟩
      · exact Or.inl (strLt_trans hab hbc)
      · refine Or.inl ?_
        rw [← hbc]
        exact hab
    · rcases hbc with hbc | ⟨hbc, hbc2⟩
      · refine Or.inl ?_
        rw [hab]
        exact hbc
      · exact Or.inr ⟨hab.trans hbc, hab2.trans hbc2⟩

/-- `availabilityRepository.GetByPsikologID`: all rows of the owner,
`ORDER BY hari ASC, waktu_mulai ASC`.  SQL promises a permutation sorted by
that key; the embedding fixes insertion sort.  An owner without rows gets
the empty list, not an error. -/
def GetByPsikologID (st : Store) (psikologID : Nat) :
    List WaktuKonsultasi :=
  List.insertionSort rowle
    (st.rows.filter (fun r => r.psikologID == psikologID))

/-- `availabilityUsecase.SetAvailability`: validate the payload (client
error on failure, nothing persisted), convert each `SlotPayload` to a
`WaktuKonsultasi` tagged with the caller's `psikologID`, and call
`ReplaceAll`; a repository error is wrapped into a 500 `DomainError`. -/
def SetAvailability (st : Store) (psikologID : Nat)
    (p : SetAvailabilityPayload) (fault : TxFault) :
    Store × Option DomainError :=
  match p.validate with
  | some e => (st, some e)
  | none =>
    let newSlots := p.slots.map
      (fun s => ⟨0, psikologID, s.hari, s.waktuMulai, s.waktuSelesai⟩)
    match ReplaceAll st psikologID newSlots fault with
    | (st2, none) => (st2, none)
    | (st2, some _) =>
      (st2, some ⟨500, "Failed to update availability schedule"⟩)

/-- The canonical weekday labels of the `oneof` struct tag, in canonical
order. -/
def canonicalDays : List String :=
  ["Senin", "Selasa", "Rabu", "Kamis", "Jumat", "Sabtu", "Minggu"]

/-- The go-playground struct tags on `SlotPayload`
(`required,oneof=...` and `required,datetime=15:04:05`), as checked by
`validator.Struct` in the HTTP handler: the day must be one of the seven
canonical labels and both times must parse under layout `15:04:05`. -/
def slotTagValid (s : SlotPayload) : Bool :=
  canonicalDays.contains s.hari && (timeParse s.waktuMulai).isSome &&
    (timeParse s.waktuSelesai).isSome

/-- The struct tags on `SetAvailabilityPayload`
(`required,min=1,dive`): at least one slot, every slot tag-valid. -/
def payloadTagValid (p : SetAvailabilityPayload) : Bool :=
  decide (1 ≤ p.slots.length) && p.slots.all slotTagValid

/-- `AvailabilityHandler.SetAvailability` after binding: run
`validator.Struct` (reject with a 400 "Validation failed" client error
before the usecase runs), then delegate to the usecase and surface its
`DomainError` as status and message. -/
def handlerSetAvailability (st : Store) (psikologID : Nat)
    (p : SetAvailabilityPayload) (fault : TxFault) :
    Store × Option (Nat × String) :=
  if payloadTagValid p then
    match SetAvailability st psikologID p fault with
    | (st2, none) => (st2, none)
    | (st2, some e) => (st2, some (e.httpStatus, e.message))
  else
    (st, some (400, "Validation failed"))

/-- The observable content of a row, ignoring the generated identifier. -/
def slotTriple (r : WaktuKonsultasi) : String × String × String :=
  (r.hari, r.waktuMulai, r.waktuSelesai)

/-- Position of a day in the spec's canonical weekday order
(`Modelled from the spec` wording of §6/§GLOSSARY, used only to state the
ordering that claims C3 and C6 assert). -/
def specCanonicalIndex (d : String) : Nat :=
  if d = "Senin" then 0
  else if d = "Selasa" then 1
  else if d = "Rabu" then 2
  else if d = "Kamis" then 3
  else if d = "Jumat" then 4
  else if d = "Sabtu" then 5
  else if d = "Minggu" then 6
  else 7

/-- The ordering claimed by the spec for `getByOwner`: canonical weekday
order, then start time. -/
def specCanonicallyOrdered (l : List WaktuKonsultasi) : Prop :=
  List.Pairwise
    (fun a b => specCanonicalIndex a.hari < specCanonicalIndex b.hari ∨
      (a.hari = b.hari ∧ startKey a ≤ startKey b)) l

instance (l : List WaktuKonsultasi) : Decidable (specCanonicallyOrdered l) := by
  unfold specCanonicallyOrdered; infer_instance

/-! ### Lemmas about the validator -/

theorem validate_eq_none_iff (s : SlotPayload) :
    s.validate = none ↔ ∃ t1 t2, timeParse s.waktuMulai = some t1 ∧
      timeParse s.waktuSelesai = some t2 ∧ t1 < t2 ∧ 1800 ≤ t2 - t1 := by
  unfold SlotPayload.validate
  cases h1 : timeParse s.waktuMulai with
  | none => simp [h1]
  | some t1 =>
    cases h2 : timeParse s.waktuSelesai with
    | none => simp [h2]
    | some t2 =>
      by_cases h3 : t1 < t2
      · by_cases h4 : t2 - t1 < 1800
        · simp [h3, h4]
        · simp [h3, h4]
          omega
      · simp [h3]

theorem validateSlots_eq_none_iff :
    ∀ l : List SlotPayload, validateSlots l = none ↔ ∀ s ∈ l, s.validate = none := by
  intro l
  induction l with
  | nil => simp [validateSlots]
  | cons s rest ih =>
    unfold validateSlots
    cases hv : s.validate with
    | some e => simp [hv]
    | none => simp [hv, ih]

theorem checkAgainst_eq_none_iff (s : SlotPayload) :
    ∀ l, checkAgainst s l = none ↔ ∀ t ∈ l, isOverlapping s t = false := by
  intro l
  induction l with
  | nil => simp [checkAgainst]
  | cons u us ih =>
    unfold checkAgainst
    by_cases h : isOverlapping s u = true
    · simp [h]
    · rw [Bool.not_eq_true] at h
      simp [h, ih]

theorem checkAgainst_eq_some (s t : SlotPayload) :
    ∀ l, checkAgainst s l = some t → t ∈ l ∧ isOverlapping s t = true := by
  intro l
  induction l with
  | nil => simp [checkAgainst]
  | cons u us ih =>
    intro he
    unfold checkAgainst at he
    by_cases h : isOverlapping s u = true
    · rw [if_pos h] at he
      injection he with he2
      subst he2
      exact ⟨List.mem_cons_self _ _, h⟩
    · rw [if_neg h] at he
      rcases ih he with ⟨hm, ho⟩
      exact ⟨List.mem_cons_of_mem u hm, ho⟩

theorem isOverlapping_comm (a b : SlotPayload) :
    isOverlapping a b = isOverlapping b a := by
  simp [isOverlapping, Bool.and_comm]

theorem isOverlapping_self_of_valid {s : SlotPayload} (h : s.validate = none) :
    isOverlapping s s = true := by
  rcases (validate_eq_none_iff s).mp h with ⟨t1, t2, h1, h2, hlt, _⟩
  simp [isOverlapping, parseOrZeroTime, h1, h2, hlt]

theorem validateNoOverlapping_eq_none_iff :
    ∀ l, validateNoOverlapping l = none ↔
      ∀ a b : SlotPayload, List.Sublist [a, b] l → isOverlapping a b = false := by
  intro l
  induction l with
  | nil =>
    constructor
    · intro _ a b hsub
      exact absurd (List.sublist_nil.mp hsub) (by simp)
    · intro _
      rfl
  | cons s rest ih =>
    unfold validateNoOverlapping
    cases hca : checkAgainst s rest with
    | some t =>
      rcases checkAgainst_eq_some s t rest hca with ⟨hm, ho⟩
      apply iff_of_false (by simp)
      intro hR
      have hsub : List.Sublist [s, t] (s :: rest) :=
        List.Sublist.cons₂ s (List.singleton_sublist.mpr hm)
      rw [hR s t hsub] at ho
      exact absurd ho (by simp)
    | none =>
      have hforall := (checkAgainst_eq_none_iff s rest).mp hca
      rw [ih]
      constructor
      · intro h a b hsub
        cases hsub with
        | cons _ h2 => exact h a b h2
        | cons₂ _ h2 => exact hforall b (List.singleton_sublist.mp h2)
      · intro h a b hsub
        exact h a b (List.Sublist.cons s hsub)

theorem checkGroups_eq_none_iff :
    ∀ gs : List (String × List SlotPayload), checkGroups gs = none ↔
      ∀ g ∈ gs, validateNoOverlapping g.2 = none := by
  intro gs
  induction gs with
  | nil => simp [checkGroups]
  | cons g rest ih =>
    rcases g with ⟨day, slots⟩
    unfold checkGroups
    cases hv : validateNoOverlapping slots with
    | some msg => simp [hv]
    | none => simp [hv, ih]

theorem checkGroups_eq_some :
    ∀ (gs : List (String × List SlotPayload)) (e : DomainError),
      checkGroups gs = some e →
      ∃ d m, e = ⟨400, "Time overlapping detected for " ++ d ++ ": " ++ m⟩ := by
  intro gs
  induction gs with
  | nil => simp [checkGroups]
  | cons g rest ih =>
    rcases g with ⟨day, slots⟩
    intro e he
    unfold checkGroups at he
    cases hv : validateNoOverlapping slots with
    | some msg =>
      rw [hv] at he
      injection he with he2
      exact ⟨day, msg, he2.symm⟩
    | none =>
      rw [hv] at he
      exact ih e he

theorem pair_sublist {α : Type} :
    ∀ (l : List α) (i j : Nat) (hi : i < l.length) (hj : j < l.length),
      i < j → List.Sublist [l.get ⟨i, hi⟩, l.get ⟨j, hj⟩] l := by
  intro l
  induction l with
  | nil =>
    intro i j hi
    simp at hi
  | cons a t ih =>
    intro i j hi hj hij
    cases i with
    | zero =>
      cases j with
      | zero => exact absurd hij (lt_irrefl 0)
      | succ j2 =>
        have hj2 : j2 < t.length := Nat.lt_of_succ_lt_succ hj
        show List.Sublist [a, t.get ⟨j2, hj2⟩] (a :: t)
        exact List.Sublist.cons₂ a (List.singleton_sublist.mpr (t.get_mem _ _))
    | succ i2 =>
      cases j with
      | zero => exact absurd hij (by omega)
      | succ j2 =>
        have hi2 : i2 < t.length := Nat.lt_of_succ_lt_succ hi
        have hj2 : j2 < t.length := Nat.lt_of_succ_lt_succ hj
        show List.Sublist [t.get ⟨i2, hi2⟩, t.get ⟨j2, hj2⟩] (a :: t)
        exact List.Sublist.cons a (ih i2 j2 hi2 hj2 (Nat.lt_of_succ_lt_succ hij))

theorem pair_sublist_filter {p : SlotPayload → Bool} {a b : SlotPayload}
    {l : List SlotPayload} (h : List.Sublist [a, b] l)
    (ha : p a = true) (hb : p b = true) :
    List.Sublist [a, b] (l.filter p) := by
  have h2 := h.filter p
  simpa [List.filter, ha, hb] using h2

/-- Shared core of C1 and C10: under per-slot validity, any two slots of
the payload occurring in order, on the same day and overlapping, force
`SetAvailabilityPayload.Validate` to return the overlap `DomainError`. -/
theorem payload_overlap_error (p : SetAvailabilityPayload)
    (hv : ∀ s ∈ p.slots, s.validate = none)
    {a b : SlotPayload} (hab : List.Sublist [a, b] p.slots)
    (hday : a.hari = b.hari) (hov : isOverlapping a b = true) :
    ∃ d m, p.validate =
      some ⟨400, "Time overlapping detected for " ++ d ++ ": " ++ m⟩ := by
  have hvs : validateSlots p.slots = none := (validateSlots_eq_none_iff _).mpr hv
  have hval : p.validate = checkGroups (dayGroups p.slots) := by
    unfold SetAvailabilityPayload.validate
    rw [hvs]
  cases hcg : checkGroups (dayGroups p.slots) with
  | some e =>
    rcases checkGroups_eq_some _ e hcg with ⟨d, m, he⟩
    exact ⟨d, m, by rw [hval, hcg, he]⟩
  | none =>
    exfalso
    have hAll := (checkGroups_eq_none_iff _).mp hcg
    have hmem : a ∈ p.slots := hab.subset (by simp)
    have hd : a.hari ∈ p.slots.map (fun s => s.hari) :=
      List.mem_map_of_mem _ hmem
    have hg : (a.hari, p.slots.filter (fun s => s.hari == a.hari)) ∈
        dayGroups p.slots := by
      unfold dayGroups
      exact List.mem_map_of_mem _ (List.mem_dedup.mpr hd)
    have hvno := hAll _ hg
    have hnp := (validateNoOverlapping_eq_none_iff _).mp hvno
    have hfil : List.Sublist [a, b]
        (p.slots.filter (fun s => s.hari == a.hari)) := by
      refine pair_sublist_filter hab (by simp) ?_
      show (b.hari == a.hari) = true
      rw [hday]
      exact beq_self_eq_true _
    rw [hnp a b hfil] at hov
    exact absurd hov (by simp)

/-- Claim C1: in a candidate list whose slots all pass individual
validation, any two slots at distinct positions sharing a day whose
intervals overlap under `start1 < end2 AND start2 < end1` make
`SetAvailabilityPayload.Validate` fail with an overlap error; and a
schedule of two individually valid slots on different days with identical
time ranges validates — no cross-day overlap check is performed. -/
theorem validate_same_day_overlap_error_and_cross_day_ok :
    (∀ (p : SetAvailabilityPayload) (i j : Nat)
      (hi : i < p.slots.length) (hj : j < p.slots.length),
      (∀ s ∈ p.slots, s.validate = none) → i ≠ j →
      (p.slots.get ⟨i, hi⟩).hari = (p.slots.get ⟨j, hj⟩).hari →
      isOverlapping (p.slots.get ⟨i, hi⟩) (p.slots.get ⟨j, hj⟩) = true →
      ∃ d m, p.validate =
        some ⟨400, "Time overlapping detected for " ++ d ++ ": " ++ m⟩)
    ∧ (∀ s1 s2 : SlotPayload, s1.validate = none → s2.validate = none →
      s1.hari ≠ s2.hari → s1.waktuMulai = s2.waktuMulai →
      s1.waktuSelesai = s2.waktuSelesai →
      SetAvailabilityPayload.validate ⟨[s1, s2]⟩ = none) := by
  constructor
  · intro p i j hi hj hv hij hday hov
    rcases Nat.lt_or_ge i j with hlt | hge
    · exact payload_overlap_error p hv (pair_sublist _ i j hi hj hlt) hday hov
    · have hlt2 : j < i := by omega
      refine payload_overlap_error p hv
        (pair_sublist _ j i hj hi hlt2) hday.symm ?_
      rw [isOverlapping_comm]
      exact hov
  · intro s1 s2 hv1 hv2 hne hm hsel
    have hvs : validateSlots [s1, s2] = none := by
      simp [validateSlots, hv1, hv2]
    have e1 : (s1.hari == s1.hari) = true := beq_self_eq_true _
    have e2 : (s2.hari == s1.hari) = false :=
      beq_eq_false_iff_ne.mpr (Ne.symm hne)
    have e3 : (s1.hari == s2.hari) = false := beq_eq_false_iff_ne.mpr hne
    have e4 : (s2.hari == s2.hari) = true := beq_self_eq_true _
    have h1 : s1.hari ∉ [s2.hari] := by simp [hne]
    have hded : (List.map (fun s => s.hari) [s1, s2]).dedup =
        [s1.hari, s2.hari] := by
      rw [List.map_cons, List.map_cons, List.map_nil,
        List.dedup_cons_of_not_mem h1,
        List.dedup_cons_of_not_mem (by simp), List.dedup_nil]
    unfold SetAvailabilityPayload.validate
    rw [hvs]
    show checkGroups (dayGroups [s1, s2]) = none
    unfold dayGroups
    rw [hded]
    simp [checkGroups, validateNoOverlapping, checkAgainst, List.filter,
      e1, e2, e3, e4]

/-- Witness for C1: the spec's scenario 2 list fails with an overlap error
and a cross-day pair with identical time ranges validates. -/
theorem validate_same_day_overlap_error_and_cross_day_ok_witness :
    (∃ d m, SetAvailabilityPayload.validate
        ⟨[⟨"Senin", "09:00:00", "10:00:00"⟩, ⟨"Senin", "09:30:00", "11:00:00"⟩]⟩ =
      some ⟨400, "Time overlapping detected for " ++ d ++ ": " ++ m⟩)
    ∧ SetAvailabilityPayload.validate
        ⟨[⟨"Senin", "09:00:00", "10:00:00"⟩, ⟨"Selasa", "09:00:00", "10:00:00"⟩]⟩ =
      none := by
  constructor
  · exact validate_same_day_overlap_error_and_cross_day_ok.1
      ⟨[⟨"Senin", "09:00:00", "10:00:00"⟩, ⟨"Senin", "09:30:00", "11:00:00"⟩]⟩
      0 1 (by decide) (by decide) (by decide) (by decide) (by decide) (by decide)
  · exact validate_same_day_overlap_error_and_cross_day_ok.2 _ _
      (by decide) (by decide) (by decide) rfl rfl

/-- Claim C10: a candidate list of individually valid slots containing the
same (day, start, end) value at two distinct positions fails validation
with an overlap error, because an interval overlaps an identical copy of
itself under `start1 < end2 AND start2 < end1`. -/
theorem validate_duplicate_slots_rejected (p : SetAvailabilityPayload)
    (i j : Nat) (hi : i < p.slots.length) (hj : j < p.slots.length)
    (hv : ∀ s ∈ p.slots, s.validate = none) (hij : i ≠ j)
    (heq : p.slots.get ⟨i, hi⟩ = p.slots.get ⟨j, hj⟩) :
    ∃ d m, p.validate =
      some ⟨400, "Time overlapping detected for " ++ d ++ ": " ++ m⟩ := by
  have hvalid : (p.slots.get ⟨j, hj⟩).validate = none :=
    hv _ (List.get_mem _ _ _)
  have hov : isOverlapping (p.slots.get ⟨i, hi⟩) (p.slots.get ⟨j, hj⟩) = true := by
    rw [heq]
    exact isOverlapping_self_of_valid hvalid
  have hday : (p.slots.get ⟨i, hi⟩).hari = (p.slots.get ⟨j, hj⟩).hari := by
    rw [heq]
  rcases Nat.lt_or_ge i j with hlt | hge
  · exact payload_overlap_error p hv (pair_sublist _ i j hi hj hlt) hday hov
  · have hlt2 : j < i := by omega
    refine payload_overlap_error p hv
      (pair_sublist _ j i hj hi hlt2) hday.symm ?_
    rw [isOverlapping_comm]
    exact hov

/-- Witness for C10: an exact duplicate pair is rejected with an overlap
error. -/
theorem validate_duplicate_slots_rejected_witness :
    ∃ d m, SetAvailabilityPayload.validate
        ⟨[⟨"Senin", "09:00:00", "10:00:00"⟩, ⟨"Senin", "09:00:00", "10:00:00"⟩]⟩ =
      some ⟨400, "Time overlapping detected for " ++ d ++ ": " ++ m⟩ :=
  validate_duplicate_slots_rejected
    ⟨[⟨"Senin", "09:00:00", "10:00:00"⟩, ⟨"Senin", "09:00:00", "10:00:00"⟩]⟩
    0 1 (by decide) (by decide) (by decide) (by decide) (by decide)

/-- Claim C5: `SlotPayload.Validate` succeeds exactly when both times
parse under layout `15:04:05`, the start is strictly before the end, and
the duration is at least 30 minutes; each failure mode returns its
matching error, as witnessed on the spec's two concrete examples. -/
theorem slot_validate_characterization (s : SlotPayload) :
    (s.validate = none ↔ ∃ t1 t2, timeParse s.waktuMulai = some t1 ∧
      timeParse s.waktuSelesai = some t2 ∧ t1 < t2 ∧ 1800 ≤ t2 - t1)
    ∧ (timeParse s.waktuMulai = none →
        s.validate = some ⟨400, "Invalid start time format"⟩)
    ∧ (∀ t1, timeParse s.waktuMulai = some t1 →
        timeParse s.waktuSelesai = none →
        s.validate = some ⟨400, "Invalid end time format"⟩)
    ∧ (∀ t1 t2, timeParse s.waktuMulai = some t1 →
        timeParse s.waktuSelesai = some t2 → t2 ≤ t1 →
        s.validate = some ⟨400, "Start time must be before end time"⟩)
    ∧ (∀ t1 t2, timeParse s.waktuMulai = some t1 →
        timeParse s.waktuSelesai = some t2 → t1 < t2 → t2 - t1 < 1800 →
        s.validate =
          some ⟨400, "Minimum consultation duration is 30 minutes"⟩)
    ∧ SlotPayload.validate ⟨"Selasa", "15:00:00", "09:00:00"⟩ =
        some ⟨400, "Start time must be before end time"⟩
    ∧ SlotPayload.validate ⟨"Senin", "09:00:00", "09:20:00"⟩ =
        some ⟨400, "Minimum consultation duration is 30 minutes"⟩ := by
  refine ⟨validate_eq_none_iff s, ?_, ?_, ?_, ?_, by decide, by decide⟩
  · intro h1
    unfold SlotPayload.validate
    rw [h1]
  · intro t1 h1 h2
    unfold SlotPayload.validate
    rw [h1, h2]
  · intro t1 t2 h1 h2 hle
    unfold SlotPayload.validate
    rw [h1, h2]
    simp [show ¬ t1 < t2 by omega]
  · intro t1 t2 h1 h2 hlt hdur
    unfold SlotPayload.validate
    rw [h1, h2]
    simp [hlt, hdur]

/-- Witness for C5: a valid slot accepted through the characterization. -/
theorem slot_validate_characterization_witness :
    SlotPayload.validate ⟨"Senin", "09:00:00", "10:00:00"⟩ = none :=
  (slot_validate_characterization ⟨"Senin", "09:00:00", "10:00:00"⟩).1.mpr
    ⟨32400, 36000, by decide, by decide, by decide, by decide⟩

/-- Claim C9: once both slots have passed `SlotPayload.Validate`, all four
`time.Parse` calls of `isOverlapping` succeed (the discarded-error
branches are unreachable) and `isOverlapping` computes exactly the
interval test `start1 < end2 AND start2 < end1` on the parsed times. -/
theorem isOverlapping_eq_interval_test_of_validated (s1 s2 : SlotPayload)
    (h1 : s1.validate = none) (h2 : s2.validate = none) :
    ∃ a1 b1 a2 b2, timeParse s1.waktuMulai = some a1 ∧
      timeParse s1.waktuSelesai = some b1 ∧
      timeParse s2.waktuMulai = some a2 ∧
      timeParse s2.waktuSelesai = some b2 ∧
      isOverlapping s1 s2 = (decide (a1 < b2) && decide (a2 < b1)) := by
  rcases (validate_eq_none_iff s1).mp h1 with ⟨a1, b1, ha1, hb1, _, _⟩
  rcases (validate_eq_none_iff s2).mp h2 with ⟨a2, b2, ha2, hb2, _, _⟩
  refine ⟨a1, b1, a2, b2, ha1, hb1, ha2, hb2, ?_⟩
  simp [isOverlapping, parseOrZeroTime, ha1, hb1, ha2, hb2]

/-- Witness for C9 on two concrete validated slots. -/
theorem isOverlapping_eq_interval_test_of_validated_witness :
    ∃ a1 b1 a2 b2, timeParse "09:00:00" = some a1 ∧
      timeParse "10:00:00" = some b1 ∧
      timeParse "09:30:00" = some a2 ∧
      timeParse "11:00:00" = some b2 ∧
      isOverlapping ⟨"Senin", "09:00:00", "10:00:00"⟩
          ⟨"Senin", "09:30:00", "11:00:00"⟩ =
        (decide (a1 < b2) && decide (a2 < b1)) :=
  isOverlapping_eq_interval_test_of_validated
    ⟨"Senin", "09:00:00", "10:00:00"⟩ ⟨"Senin", "09:30:00", "11:00:00"⟩
    (by decide) (by decide)

/-! ### Lemmas about the store -/

theorem filter_deleteByPsikolog (rows : List WaktuKonsultasi) (pid : Nat) :
    (deleteByPsikolog rows pid).filter (fun r => r.psikologID == pid) = [] := by
  unfold deleteByPsikolog
  rw [List.filter_filter]
  rw [List.filter_eq_nil_iff]
  intro a ha
  simp

theorem assignIds_filter_map_slotTriple (pid : Nat) :
    ∀ (slots : List WaktuKonsultasi) (n : Nat),
      ((assignIds n slots).filter (fun r => r.psikologID == pid)).map
          slotTriple =
        (slots.filter (fun r => r.psikologID == pid)).map slotTriple := by
  intro slots
  induction slots with
  | nil => intro n; rfl
  | cons s rest ih =>
    intro n
    simp only [assignIds, List.filter_cons]
    by_cases h : (s.psikologID == pid) = true
    · simp [h, slotTriple, ih]
    · rw [Bool.not_eq_true] at h
      simp [h, ih]

theorem replaceAll_noFault_snd (st : Store) (pid : Nat)
    (slots : List WaktuKonsultasi) :
    (ReplaceAll st pid slots .noFault).2 = none := by
  unfold ReplaceAll
  by_cases hl : 0 < slots.length
  · simp [hl]
  · simp [hl]

theorem replaceAll_rows_filter_triple (st : Store) (pid : Nat)
    (slots : List WaktuKonsultasi) :
    ((ReplaceAll st pid slots .noFault).1.rows.filter
        (fun r => r.psikologID == pid)).map slotTriple =
      (slots.filter (fun r => r.psikologID == pid)).map slotTriple := by
  unfold ReplaceAll
  by_cases hl : 0 < slots.length
  · rw [if_neg (show ¬ TxFault.noFault = TxFault.failDelete from
        fun h => TxFault.noConfusion h),
      if_pos hl,
      if_neg (show ¬ TxFault.noFault = TxFault.failInsert from
        fun h => TxFault.noConfusion h)]
    rw [List.filter_append, filter_deleteByPsikolog, List.nil_append,
      assignIds_filter_map_slotTriple]
  · have hnil : slots = [] := by
      cases slots with
      | nil => rfl
      | cons a t => exact absurd (by simp : 0 < (a :: t).length) hl
    subst hnil
    simp [filter_deleteByPsikolog]

/-- Claim C2: `ReplaceAll` is atomic — whenever it reports an error the
returned store is exactly the pre-call store (rollback, no partial
deletes or inserts); a delete-phase fault always errors, and an
insert-phase fault after a successful delete errors with the pre-call
store preserved (never an emptied schedule); the error is propagated,
never swallowed. -/
theorem replaceAll_atomic (st : Store) (pid : Nat)
    (slots : List WaktuKonsultasi) (fault : TxFault) :
    ((ReplaceAll st pid slots fault).2.isSome = true →
      (ReplaceAll st pid slots fault).1 = st)
    ∧ (fault = .failDelete →
        ReplaceAll st pid slots fault =
          (st, some "failed to delete old availability slots"))
    ∧ (fault = .failInsert → slots ≠ [] →
        ReplaceAll st pid slots fault =
          (st, some "failed to create new availability slots")) := by
  refine ⟨?_, ?_, ?_⟩
  · intro h
    unfold ReplaceAll at h ⊢
    cases fault with
    | noFault =>
      exfalso
      by_cases hl : 0 < slots.length <;> simp [hl] at h
    | failDelete => simp
    | failInsert =>
      by_cases hl : 0 < slots.length
      · simp [hl]
      · exfalso
        simp [hl] at h
  · intro h
    subst h
    simp [ReplaceAll]
  · intro h hne
    subst h
    have hl : 0 < slots.length := List.length_pos.mpr hne
    unfold ReplaceAll
    simp [hl]

/-- Witness for C2: an insert-phase fault after the delete phase leaves
the one-row pre-call store untouched and propagates the error. -/
theorem replaceAll_atomic_witness :
    ReplaceAll ⟨[⟨1, 1, "Senin", "09:00:00", "12:00:00"⟩], 2⟩ 1
        [⟨0, 1, "Selasa", "09:00:00", "12:00:00"⟩] .failInsert =
      (⟨[⟨1, 1, "Senin", "09:00:00", "12:00:00"⟩], 2⟩,
        some "failed to create new availability slots") :=
  (replaceAll_atomic ⟨[⟨1, 1, "Senin", "09:00:00", "12:00:00"⟩], 2⟩ 1
      [⟨0, 1, "Selasa", "09:00:00", "12:00:00"⟩] .failInsert).2.2
    rfl (by decide)

/-- Claim C7: `ReplaceAll` is idempotent at the data level — running it
twice with the same slot list leaves the owner's observable schedule (the
(day, start, end) content, row identifiers ignored) identical to one run,
and both runs succeed. -/
theorem replaceAll_idempotent (st : Store) (pid : Nat)
    (slots : List WaktuKonsultasi) :
    (ReplaceAll st pid slots .noFault).2 = none
    ∧ (ReplaceAll (ReplaceAll st pid slots .noFault).1 pid slots
        .noFault).2 = none
    ∧ List.Perm
        ((GetByPsikologID
            (ReplaceAll (ReplaceAll st pid slots .noFault).1 pid slots
              .noFault).1 pid).map slotTriple)
        ((GetByPsikologID (ReplaceAll st pid slots .noFault).1 pid).map
          slotTriple) := by
  refine ⟨replaceAll_noFault_snd _ _ _, replaceAll_noFault_snd _ _ _, ?_⟩
  have key : ∀ st2 : Store,
      List.Perm
        ((GetByPsikologID (ReplaceAll st2 pid slots .noFault).1 pid).map
          slotTriple)
        ((slots.filter (fun r => r.psikologID == pid)).map slotTriple) := by
    intro st2
    have hperm :
        List.Perm (GetByPsikologID (ReplaceAll st2 pid slots .noFault).1 pid)
          ((ReplaceAll st2 pid slots .noFault).1.rows.filter
            (fun r => r.psikologID == pid)) :=
      List.perm_insertionSort rowle _
    have h2 := hperm.map slotTriple
    rw [replaceAll_rows_filter_triple] at h2
    exact h2
  exact (key _).trans (key st).symm

/-- Claim C8: an empty slot list is accepted — `SetAvailabilityPayload`
validation passes, `ReplaceAll` with the empty list succeeds (deleting
every existing row of the owner, inserting nothing), the usecase call
succeeds, and a subsequent `GetByPsikologID` returns the empty list. -/
theorem replaceAll_empty_clears (st : Store) (pid : Nat) :
    SetAvailabilityPayload.validate ⟨[]⟩ = none
    ∧ (ReplaceAll st pid [] .noFault).2 = none
    ∧ GetByPsikologID (ReplaceAll st pid [] .noFault).1 pid = []
    ∧ (SetAvailability st pid ⟨[]⟩ .noFault).2 = none
    ∧ GetByPsikologID (SetAvailability st pid ⟨[]⟩ .noFault).1 pid = [] := by
  have hrep : ReplaceAll st pid [] .noFault =
      ({ st with rows := deleteByPsikolog st.rows pid }, none) := by
    simp [ReplaceAll]
  have hget :
      GetByPsikologID { st with rows := deleteByPsikolog st.rows pid } pid =
        [] := by
    unfold GetByPsikologID
    rw [show ({ st with rows := deleteByPsikolog st.rows pid } :
        Store).rows = deleteByPsikolog st.rows pid from rfl,
      filter_deleteByPsikolog]
    rfl
  have hval : SetAvailabilityPayload.validate ⟨[]⟩ = none := rfl
  have hset : SetAvailability st pid ⟨[]⟩ .noFault =
      ({ st with rows := deleteByPsikolog st.rows pid }, none) := by
    unfold SetAvailability
    simp [hval, hrep]
  exact ⟨hval, by rw [hrep], by rw [hrep]; exact hget, by rw [hset],
    by rw [hset]; exact hget⟩

/-- Two rows of owner 1 on Senin and Rabu: under canonical weekday order
Senin comes first, under the day-string order of `ORDER BY hari ASC` the
row for Rabu comes first. -/
def c3Store : Store :=
  ⟨[⟨1, 1, "Senin", "09:00:00", "12:00:00"⟩,
    ⟨2, 1, "Rabu", "10:00:00", "15:00:00"⟩], 3⟩

/-- Counterexample to C3: `GetByPsikologID` returns the Rabu row before
the Senin row — alphabetical day-string order, not canonical weekday
order. -/
theorem getByPsikologID_not_canonical_order :
    (GetByPsikologID c3Store 1).map (fun r => r.hari) = ["Rabu", "Senin"]
    ∧ ¬ specCanonicallyOrdered (GetByPsikologID c3Store 1) := by
  constructor
  · decide
  · decide

/-- Claim C3 (amended): `GetByPsikologID` returns exactly the owner's
rows, sorted by day *string* ascending (alphabetical: Jumat, Kamis,
Minggu, Rabu, Sabtu, Selasa, Senin — not canonical weekday order) and
then by start time ascending, and returns the empty list (not an error)
for an owner with no rows. -/
theorem getByPsikologID_sorted_by_day_string (st : Store) (pid : Nat) :
    List.Perm (GetByPsikologID st pid)
      (st.rows.filter (fun r => r.psikologID == pid))
    ∧ List.Sorted rowle (GetByPsikologID st pid)
    ∧ (st.rows.filter (fun r => r.psikologID == pid) = [] →
        GetByPsikologID st pid = []) := by
  refine ⟨List.perm_insertionSort rowle _,
    List.sorted_insertionSort rowle _, ?_⟩
  intro h
  unfold GetByPsikologID
  rw [h]
  rfl

/-- Witness for the amended C3: an owner with no rows gets the empty
list. -/
theorem getByPsikologID_sorted_by_day_string_witness :
    GetByPsikologID ⟨[], 5⟩ 9 = [] :=
  (getByPsikologID_sorted_by_day_string ⟨[], 5⟩ 9).2.2 rfl

/-- The slots of the spec's scenario 1 round trip, owned by owner 2. -/
def c6Slots : List WaktuKonsultasi :=
  [⟨0, 2, "Senin", "09:00:00", "12:00:00"⟩,
   ⟨0, 2, "Jumat", "10:00:00", "15:00:00"⟩]

/-- Counterexample to C6: after `ReplaceAll` of a Senin slot and a Jumat
slot, `GetByPsikologID` returns Jumat first — day-string order, not the
canonical weekday order the claim asserts. -/
theorem roundtrip_not_canonical_order :
    (GetByPsikologID (ReplaceAll ⟨[], 1⟩ 2 c6Slots .noFault).1 2).map
        (fun r => r.hari) = ["Jumat", "Senin"]
    ∧ ¬ specCanonicallyOrdered
        (GetByPsikologID (ReplaceAll ⟨[], 1⟩ 2 c6Slots .noFault).1 2) := by
  constructor
  · decide
  · decide

/-- Claim C6 (amended): a successful `ReplaceAll` followed by
`GetByPsikologID` returns exactly the slots of the call — equal as a
multiset of (day, start, end) values, row identifiers ignored — sorted by
day string ascending then start time, not by canonical weekday order. -/
theorem roundtrip_content_sorted_by_day_string (st : Store) (pid : Nat)
    (slots : List WaktuKonsultasi) (h : ∀ s ∈ slots, s.psikologID = pid) :
    (ReplaceAll st pid slots .noFault).2 = none
    ∧ List.Perm
        ((GetByPsikologID (ReplaceAll st pid slots .noFault).1 pid).map
          slotTriple)
        (slots.map slotTriple)
    ∧ List.Sorted rowle
        (GetByPsikologID (ReplaceAll st pid slots .noFault).1 pid) := by
  refine ⟨replaceAll_noFault_snd _ _ _, ?_,
    List.sorted_insertionSort rowle _⟩
  have hperm :
      List.Perm (GetByPsikologID (ReplaceAll st pid slots .noFault).1 pid)
        ((ReplaceAll st pid slots .noFault).1.rows.filter
          (fun r => r.psikologID == pid)) :=
    List.perm_insertionSort rowle _
  have h2 := hperm.map slotTriple
  rw [replaceAll_rows_filter_triple] at h2
  have hself : slots.filter (fun r => r.psikologID == pid) = slots :=
    List.filter_eq_self.mpr (fun a ha => by simp [h a ha])
  rw [hself] at h2
  exact h2

/-- Witness for the amended C6 on the scenario-1 slots. -/
theorem roundtrip_content_sorted_by_day_string_witness :
    List.Perm
      ((GetByPsikologID (ReplaceAll ⟨[], 1⟩ 2 c6Slots .noFault).1 2).map
        slotTriple)
      (c6Slots.map slotTriple) :=
  (roundtrip_content_sorted_by_day_string ⟨[], 1⟩ 2 c6Slots (by decide)).2.1

/-- A slot whose day is not one of the seven canonical labels but whose
times are well formed. -/
def badDaySlot : SlotPayload := ⟨"Monday", "09:00:00", "10:00:00"⟩

/-- Counterexample to C4: `SlotPayload.Validate` accepts a slot whose day
is not a canonical weekday label, and the usecase `SetAvailability`
reaches `ReplaceAll` and persists the row instead of returning a client
error. -/
theorem slot_validate_ignores_day :
    SlotPayload.validate badDaySlot = none
    ∧ (SetAvailability ⟨[], 1⟩ 7 ⟨[badDaySlot]⟩ .noFault).2 = none
    ∧ (SetAvailability ⟨[], 1⟩ 7 ⟨[badDaySlot]⟩ .noFault).1.rows =
        [⟨1, 7, "Monday", "09:00:00", "10:00:00"⟩] := by
  refine ⟨by decide, by decide, by decide⟩

/-- Claim C4 (amended): the canonical-day check lives in the HTTP
handler's struct-tag validation, not in `SlotPayload.Validate`: a payload
containing a slot whose day is not one of the seven canonical labels is
rejected by the handler with a 400 client error before the usecase or
`ReplaceAll` runs, while `SlotPayload.Validate` itself never inspects the
day string. -/
theorem invalid_day_rejected_at_handler_only :
    (∀ (st : Store) (pid : Nat) (p : SetAvailabilityPayload)
      (fault : TxFault),
      (∃ s ∈ p.slots, canonicalDays.contains s.hari = false) →
      handlerSetAvailability st pid p fault =
        (st, some (400, "Validation failed")))
    ∧ (∀ d1 d2 m e : String,
        SlotPayload.validate ⟨d1, m, e⟩ = SlotPayload.validate ⟨d2, m, e⟩) := by
  constructor
  · intro st pid p fault hex
    rcases hex with ⟨s, hs, hc⟩
    have hslot : slotTagValid s = false := by
      unfold slotTagValid
      rw [hc]
      rfl
    have hall : p.slots.all slotTagValid = false := by
      cases hA : p.slots.all slotTagValid with
      | false => rfl
      | true =>
        exfalso
        have := (List.all_eq_true.mp hA) s hs
        rw [hslot] at this
        exact absurd this (by simp)
    have hptv : payloadTagValid p = false := by
      unfold payloadTagValid
      rw [hall, Bool.and_false]
    unfold handlerSetAvailability
    rw [hptv]
    rfl
  · intro d1 d2 m e
    rfl

/-- Witness for the amended C4: a payload with day "Monday" is rejected
by the handler with the 400 validation error, the store untouched. -/
theorem invalid_day_rejected_at_handler_only_witness :
    handlerSetAvailability ⟨[], 1⟩ 7 ⟨[badDaySlot]⟩ .noFault =
      (⟨[], 1⟩, some (400, "Validation failed")) :=
  invalid_day_rejected_at_handler_only.1 ⟨[], 1⟩ 7 ⟨[badDaySlot]⟩ .noFault
    ⟨badDaySlot, by decide, by decide⟩
